import Mathlib

/-!
# Verification of the spotsh instance selection/launch/price-discovery engine

A shallow embedding, in Lean 4, of the core logic of the `spotsh`
command-line tool: the operating-system enumeration (`internal/types.go`),
the spot-price table and its memoized "cheapest" pointers
(`internal/aws/image.go`), the instance locator (`aws/spotinst.go`),
the selection protocol and ssh connectivity gate (`cmd/spotsh/main.go`),
and the launch/address-polling loop (`aws/spotinst.go`).

Go maps are embedded as association lists (`List (String × α)`) with
last-write-wins insertion; Go `uint64`/`int` arithmetic is embedded as
`Nat`/`Int` with explicit wrap-around where it matters; fallible Go code
returns `Except String`/`Option`; a Go `panic` is a distinguished result.
Prices (`float64` in Go) are embedded as `ℚ`: the code only ever compares
prices with `<` and copies them, so any linearly ordered field is faithful.
-/

namespace Spotsh

/-! ## Association-list embedding of Go maps -/

/-- `m[k]` for a Go map embedded as an association list: the value at the
first matching key, if any. -/
def lookupA {α : Type} (k : String) : List (String × α) → Option α
  | [] => none
  | (k', v) :: rest => if k' = k then some v else lookupA k rest

/-- `m[k] = v` for a Go map embedded as an association list: replace the
binding if the key is present, otherwise append it. -/
def setA {α : Type} (k : String) (v : α) : List (String × α) → List (String × α)
  | [] => [(k, v)]
  | (k', v') :: rest => if k' = k then (k, v) :: rest else (k', v') :: setA k v rest

@[simp] theorem lookupA_nil {α : Type} (k : String) : lookupA (α := α) k [] = none := rfl

@[simp] theorem lookupA_cons {α : Type} (k k' : String) (v : α) (rest : List (String × α)) :
    lookupA k ((k', v) :: rest) = if k' = k then some v else lookupA k rest := rfl

theorem lookupA_setA_self {α : Type} (k : String) (v : α) (m : List (String × α)) :
    lookupA k (setA k v m) = some v := by
  induction m with
  | nil => simp [setA, lookupA]
  | cons hd tl ih =>
    obtain ⟨k', v'⟩ := hd
    by_cases h : k' = k <;> simp [setA, lookupA, h, ih]

theorem lookupA_setA_other {α : Type} (k k₀ : String) (v : α) (m : List (String × α))
    (hne : k₀ ≠ k) : lookupA k₀ (setA k v m) = lookupA k₀ m := by
  induction m with
  | nil => simp [setA, lookupA, Ne.symm hne]
  | cons hd tl ih =>
    obtain ⟨k', v'⟩ := hd
    by_cases h : k' = k
    · subst h
      simp [setA, lookupA, Ne.symm hne]
    · simp [setA, lookupA, h, ih]

/-- Every value reachable by `lookupA` is a value of some stored pair. -/
theorem lookupA_mem {α : Type} {k : String} {m : List (String × α)} {v : α}
    (h : lookupA k m = some v) : (k, v) ∈ m := by
  induction m with
  | nil => simp [lookupA] at h
  | cons hd tl ih =>
    obtain ⟨k', v'⟩ := hd
    by_cases hk : k' = k
    · subst hk
      simp [lookupA] at h
      simp [h]
    · simp [lookupA, hk] at h
      exact List.mem_cons_of_mem _ (ih h)

/-! ## `internal/types.go`: the OperatingSystem enumeration

The Go type is `type OperatingSystem uint64`; we embed values as `Nat`
(meaningful values are `< 2^64`).  The constant block defines
`OsNone = 0, Ubuntu22_04 = 1, AmazonLinux2 = 2, AmazonLinux2023 = 3,
AmazonLinux2023Min = 4, Debian12 = 5, Ubuntu24_04 = 6, OsInvalid = 7`. -/

def OsNone : Nat := 0
def Ubuntu22_04 : Nat := 1
def AmazonLinux2 : Nat := 2
def AmazonLinux2023 : Nat := 3
def AmazonLinux2023Min : Nat := 4
def Debian12 : Nat := 5
def Ubuntu24_04 : Nat := 6
def OsInvalid : Nat := 7

/-- `osTab` from `internal/types.go`: the index-keyed string table. -/
def osTab : List String :=
  ["", "ubuntu22.04", "amzn2", "amzn2023", "amzn2023min", "debian12",
   "ubuntu24.04", "invalid"]

/-- `osMap`, built by `init()`: `for idx, osStr := range osTab { osMap[osStr] = OperatingSystem(idx) }`. -/
def osMap : List (String × Nat) :=
  osTab.enum.foldl (fun m p => setA p.2 p.1 m) []

/-- Go's `int(os)` conversion from `uint64` to 64-bit `int`: two's-complement
wrap-around. -/
def int64OfUInt64 (n : Nat) : Int :=
  if n < 2 ^ 63 then (n : Int) else (n : Int) - 2 ^ 64

/-- `OperatingSystem.String()` from `internal/types.go`:

```go
idx := int(os)
if idx < 0 || idx > len(osTab) {
    idx = int(OsInvalid)
}
return osTab[idx]
```

The out-of-range table access (`osTab[idx]` with `idx = len(osTab)`)
is a Go panic, embedded as `none`. -/
def osToString (os : Nat) : Option String :=
  let idx : Int := int64OfUInt64 os
  let idx : Int := if idx < 0 ∨ idx > 8 then (OsInvalid : Int) else idx
  osTab.get? idx.toNat

/-- `OsFromString` from `internal/types.go`. -/
def osFromString (osStr : String) : Nat :=
  match lookupA osStr osMap with
  | none => OsInvalid
  | some os => os

/-- The `osMap` built by `init()` is the evident association list. -/
theorem osMap_eq : osMap =
    [("", 0), ("ubuntu22.04", 1), ("amzn2", 2), ("amzn2023", 3),
     ("amzn2023min", 4), ("debian12", 5), ("ubuntu24.04", 6), ("invalid", 7)] := by
  decide

/-- `OperatingSystem.String()` returns `"invalid"` for values strictly above
the table length that still convert to a nonnegative 64-bit `int`. -/
theorem osToString_gt_len (n : Nat) (h8 : 8 < n) (h63 : n < 2 ^ 63) :
    osToString n = some "invalid" := by
  have h1 : int64OfUInt64 n = (n : Int) := by rw [int64OfUInt64, if_pos h63]
  have h2 : (n : Int) < 0 ∨ (n : Int) > 8 := Or.inr (by exact_mod_cast h8)
  simp only [osToString, h1, if_pos h2, OsInvalid]
  rfl

/-- `OperatingSystem.String()` returns `"invalid"` for values whose
conversion to 64-bit `int` is negative. -/
theorem osToString_wrap_neg (n : Nat) (h63 : 2 ^ 63 ≤ n) (h64 : n < 2 ^ 64) :
    osToString n = some "invalid" := by
  have h1 : int64OfUInt64 n = (n : Int) - 2 ^ 64 := by
    rw [int64OfUInt64, if_neg (not_lt.mpr h63)]
  have hn : (n : Int) < 2 ^ 64 := by exact_mod_cast h64
  have h2 : (n : Int) - 2 ^ 64 < 0 ∨ (n : Int) - 2 ^ 64 > 8 := Or.inl (by omega)
  simp only [osToString, h1, if_pos h2, OsInvalid]
  rfl

/-- C8: For every defined OperatingSystem enumeration value, converting the
value to its string form and back (`OsFromString(os.String())`) yields the
same value; and for every string that is not in the string table,
`OsFromString` returns the `OsInvalid` sentinel. -/
theorem os_string_roundtrip :
    (∀ os : Nat, os ≤ 7 → (osToString os).map osFromString = some os) ∧
    (∀ s : String, s ∉ osTab → osFromString s = OsInvalid) := by
  constructor
  · intro os h
    interval_cases os <;> rfl
  · intro s hs
    simp only [osTab, List.mem_cons, List.not_mem_nil, or_false, not_or] at hs
    obtain ⟨h0, h1, h2, h3, h4, h5, h6, h7⟩ := hs
    rw [osFromString, osMap_eq]
    simp [lookupA, Ne.symm h0, Ne.symm h1, Ne.symm h2, Ne.symm h3,
      Ne.symm h4, Ne.symm h5, Ne.symm h6, Ne.symm h7]

/-- Witness for C8 at `os = amzn2023 (3)` and the unrecognized string `"zzz"`. -/
theorem os_string_roundtrip_witness :
    (osToString 3).map osFromString = some 3 ∧ osFromString "zzz" = OsInvalid :=
  ⟨os_string_roundtrip.1 3 (by decide), os_string_roundtrip.2 "zzz" (by decide)⟩

/-- C10: `OperatingSystem.String()` is not total: its guard tests
`idx > len(osTab)` rather than `idx >= len(osTab)`, so exactly the input
value `8 = len(osTab)` (one past `OsInvalid`) indexes out of bounds and
panics (`none`), while every strictly larger value that converts to a
nonnegative `int`, and every value whose `int` conversion is negative,
yields `"invalid"`. -/
theorem osToString_off_by_one :
    (∀ n : Nat, n < 2 ^ 64 → (osToString n = none ↔ n = 8)) ∧
    (∀ n : Nat, 8 < n → n < 2 ^ 63 → osToString n = some "invalid") ∧
    (∀ n : Nat, 2 ^ 63 ≤ n → n < 2 ^ 64 → osToString n = some "invalid") := by
  refine ⟨?_, osToString_gt_len, osToString_wrap_neg⟩
  intro n hn
  constructor
  · intro h
    by_contra hne
    rcases lt_trichotomy n 8 with h8 | h8 | h8
    · have h7 : n ≤ 7 := by omega
      interval_cases n <;> exact absurd h (by decide)
    · exact hne h8
    · rcases lt_or_le n (2 ^ 63) with h63 | h63
      · rw [osToString_gt_len n h8 h63] at h
        exact Option.noConfusion h
      · rw [osToString_wrap_neg n h63 hn] at h
        exact Option.noConfusion h
  · intro h
    subst h
    rfl

/-- Witness for C10 at the panic input `8`, the in-range input `9`, and the
wrap-around input `2^63`. -/
theorem osToString_off_by_one_witness :
    osToString 8 = none ∧ osToString 9 = some "invalid" ∧
      osToString (2 ^ 63) = some "invalid" :=
  ⟨(osToString_off_by_one.1 8 (by norm_num)).mpr rfl,
   osToString_off_by_one.2.1 9 (by norm_num) (by norm_num),
   osToString_off_by_one.2.2 (2 ^ 63) le_rfl (by norm_num)⟩

/-! ## `internal/aws/image.go`: the spot price table and `setCheapest`

One parsed entry of the spot price history stream (`iType`, region, az,
parsed price).  `entry.SpotPrice` is parsed by `strconv.ParseFloat` and
only ever compared with `<` afterwards, so `ℚ` is a faithful embedding. -/

structure PricePoint where
  iType : String
  region : String
  az : String
  price : ℚ
  deriving DecidableEq, Repr

/-- `LookupEc2SpotPriceAz`.  The struct is immutable after creation, so
Go's pointer to it is embedded by value. -/
structure PriceAz where
  azName : String
  curPrice : ℚ
  deriving DecidableEq, Repr

/-- `LookupEc2SpotPriceRegion`. -/
structure PriceRegion where
  region : String
  azs : List (String × PriceAz)
  cheapestAz : Option PriceAz
  deriving DecidableEq, Repr

/-- `LookupEc2SpotPriceIType`.  Go's `CheapestRegion` is a pointer to the
unique, never-replaced `LookupEc2SpotPriceRegion` struct stored under a
region key of this entry, so it is embedded as that key. -/
structure PriceIType where
  iType : String
  regions : List (String × PriceRegion)
  cheapestRegion : Option String
  deriving DecidableEq, Repr

/-- `LookupEc2SpotPriceResult` (without the mutex).  `CheapestIType` is
likewise embedded as the instance-type key. -/
structure PriceResult where
  instanceTypes : List (String × PriceIType)
  cheapestIType : Option String
  deriving DecidableEq, Repr

/-- The `Regions` map pre-populated by `LookupEc2SpotPrices` for one
instance type: one empty entry per region in `regionList`. -/
def initRegions (regionList : List String) : List (String × PriceRegion) :=
  regionList.foldl (fun m r => setA r ⟨r, [], none⟩ m) []

/-- The table pre-populated by `LookupEc2SpotPrices`: one entry per
requested instance type, each holding one empty entry per region. -/
def initPriceResult (iTypes regionList : List String) : PriceResult :=
  { instanceTypes :=
      iTypes.foldl (fun m t => setA t ⟨t, initRegions regionList, none⟩ m) []
    cheapestIType := none }

/-- The first block of `setCheapest` ("set cheapest az in region for this
iType"): `lookupAz` displaces the region's `CheapestAz` pointer exactly
when its price is strictly lower (or no pointer is set yet). -/
def stepAz (rEnt : PriceRegion) (lookupAz : PriceAz) : PriceRegion :=
  match rEnt.cheapestAz with
  | none => { rEnt with cheapestAz := some lookupAz }
  | some ca =>
      if lookupAz.curPrice < ca.curPrice then
        { rEnt with cheapestAz := some lookupAz }
      else rEnt

/-- The second block of `setCheapest` ("set cheapest region for this
iType"): compares against the *current* `CheapestAz` of the pointed-to
cheapest region (a live pointer, so read from the just-updated regions
map).  A nil `CheapestRegion` map key or nil `CheapestAz` would be a Go
nil-pointer dereference, embedded as `none`. -/
def stepRegion (tEnt1 : PriceIType) (reg : String) (lookupAz : PriceAz) :
    Option PriceIType :=
  match tEnt1.cheapestRegion with
  | none => some { tEnt1 with cheapestRegion := some reg }
  | some cr =>
      match lookupA cr tEnt1.regions with
      | none => none
      | some crEnt =>
          match crEnt.cheapestAz with
          | none => none
          | some ca =>
              some (if lookupAz.curPrice < ca.curPrice then
                      { tEnt1 with cheapestRegion := some reg }
                    else tEnt1)

/-- The third block of `setCheapest` ("set cheapest iType"): compares
against the current `CheapestAz` of the current `CheapestRegion` of the
pointed-to cheapest instance type. -/
def stepIType (result1 : PriceResult) (iType : String) (lookupAz : PriceAz) :
    Option PriceResult :=
  match result1.cheapestIType with
  | none => some { result1 with cheapestIType := some iType }
  | some ci =>
      match lookupA ci result1.instanceTypes with
      | none => none
      | some ciEnt =>
          match ciEnt.cheapestRegion with
          | none => none
          | some cr =>
              match lookupA cr ciEnt.regions with
              | none => none
              | some crEnt =>
                  match crEnt.cheapestAz with
                  | none => none
                  | some ca =>
                      some (if lookupAz.curPrice < ca.curPrice then
                              { result1 with cheapestIType := some iType }
                            else result1)

/-- `setCheapest` from `internal/aws/image.go`, called with the table
already holding `lookupAz` at `Azs[azName]`: the three cascading
cheapest-pointer updates.  A Go nil-map access followed by a field access
is embedded as `none` (propagated by `Option.bind`). -/
def setCheapest (result : PriceResult) (iType reg : String)
    (lookupAz : PriceAz) : Option PriceResult :=
  (lookupA iType result.instanceTypes).bind fun tEnt =>
    (lookupA reg tEnt.regions).bind fun rEnt =>
      (stepRegion { tEnt with regions := setA reg (stepAz rEnt lookupAz) tEnt.regions }
          reg lookupAz).bind fun tEnt2 =>
        stepIType
          { result with instanceTypes := setA iType tEnt2 result.instanceTypes }
          iType lookupAz

/-- The az-level table entry built by the ingestion loop for a price point:
`lookupAz := &LookupEc2SpotPriceAz{AzName: azName, CurPrice: curPrice}`. -/
def azOf (p : PricePoint) : PriceAz := ⟨p.az, p.price⟩

/-- One iteration of the ingestion loop in `lookupEc2SpotPricesOneRegion`:
`result.InstanceTypes[iType].Regions[curReg].Azs[azName] = lookupAz`
followed by `setCheapest(result, iType, curReg, azName, lookupAz)`. -/
def ingestPoint (result : PriceResult) (p : PricePoint) : Option PriceResult :=
  (lookupA p.iType result.instanceTypes).bind fun tEnt =>
    (lookupA p.region tEnt.regions).bind fun rEnt =>
      let rEnt' : PriceRegion :=
        { rEnt with azs := setA p.az (azOf p) rEnt.azs }
      let tEnt' : PriceIType :=
        { tEnt with regions := setA p.region rEnt' tEnt.regions }
      setCheapest
        { result with instanceTypes := setA p.iType tEnt' result.instanceTypes }
        p.iType p.region (azOf p)

/-- A fixed sequence of price points ingested sequentially (one
serialization of the lock-protected concurrent ingestion). -/
def ingestAll (result : PriceResult) (pts : List PricePoint) : Option PriceResult :=
  pts.foldlM ingestPoint result

/-- The strict less-than update rule of `setCheapest`: a new point
replaces the incumbent only when its price is strictly lower, so exact
ties keep the first-observed point. -/
def keepCheaper (acc : Option PricePoint) (p : PricePoint) : Option PricePoint :=
  match acc with
  | none => some p
  | some q => if p.price < q.price then some p else some q

/-- The first-observed point of minimal price in a sequence. -/
def firstMin (pts : List PricePoint) : Option PricePoint :=
  pts.foldl keepCheaper none

/-- The points of the sequence falling in the scope of one instance type. -/
def scopeT (t : String) (pts : List PricePoint) : List PricePoint :=
  pts.filter fun p => p.iType == t

/-- The points of the sequence falling in the scope of one
(instance type, region) pair. -/
def scopeTR (t r : String) (pts : List PricePoint) : List PricePoint :=
  pts.filter fun p => p.iType == t && p.region == r

/-! ### `LookupEc2SpotPrices`: validation and network calls (C4) -/

/-- The network calls `LookupEc2SpotPrices` can issue: `getRegions`'s
`DescribeRegions` and the per-region `DescribeSpotPriceHistory`. -/
inductive NetCall
  | describeRegions
  | describeSpotPriceHistory (region : String)
  deriving DecidableEq, Repr

/-- Outcome of a Go function that can return a value, return an error, or
panic. -/
inductive GoOutcome (α : Type)
  | ok (a : α)
  | err (e : String)
  | panicked
  deriving DecidableEq, Repr

/-- The per-region workers of `LookupEc2SpotPrices`, serialized in region
order: each queries spot price history for its region and ingests the
entries under the shared lock; the first error is recorded but later
workers still run (`errgroup.Wait` semantics). -/
def runRegions (hist : String → Except String (List PricePoint)) :
    List String → PriceResult → Option String → List NetCall × GoOutcome PriceResult
  | [], s, none => ([], .ok s)
  | [], _, some e => ([], .err e)
  | r :: rest, s, firstErr =>
    match hist r with
    | .error e =>
        let (calls, out) := runRegions hist rest s (firstErr.getD e |> some)
        (.describeSpotPriceHistory r :: calls, out)
    | .ok pts =>
        match ingestAll s pts with
        | none => ([.describeSpotPriceHistory r], .panicked)
        | some s' =>
            let (calls, out) := runRegions hist rest s' firstErr
            (.describeSpotPriceHistory r :: calls, out)

/-- `LookupEc2SpotPrices` from `internal/aws/image.go`, instrumented with
the list of network calls it performs.  `regionsOracle` abstracts
`getRegions` (one `DescribeRegions` call), `hist` abstracts the
per-region `DescribeSpotPriceHistory` query (already parsed). -/
def LookupEc2SpotPrices (cfgRegion : String) (iTypes : List String)
    (regionsOracle : Except String (List String))
    (hist : String → Except String (List PricePoint)) :
    List NetCall × GoOutcome PriceResult :=
  if iTypes = [] then
    ([], .err "Could not fetch spot prices: please specify 1 or more instance types")
  else if cfgRegion = "all" then
    match regionsOracle with
    | .error e => ([.describeRegions], .err e)
    | .ok regionList =>
        let s0 := initPriceResult iTypes regionList
        let (calls, out) := runRegions hist regionList s0 none
        (.describeRegions :: calls, out)
  else
    let s0 := initPriceResult iTypes [cfgRegion]
    runRegions hist [cfgRegion] s0 none

/-- C4: calling the price oracle with an empty instance-type list fails
with the validation error and performs no network calls: neither a region
listing nor any spot-price-history query. -/
theorem lookupPrices_empty_iTypes (cfgRegion : String)
    (regionsOracle : Except String (List String))
    (hist : String → Except String (List PricePoint)) :
    LookupEc2SpotPrices cfgRegion [] regionsOracle hist =
      ([], .err "Could not fetch spot prices: please specify 1 or more instance types") := by
  rfl

/-! ### Properties of `firstMin` and the scope filters -/

theorem foldl_keepCheaper_some (l : List PricePoint) (acc : PricePoint) :
    ∃ q, l.foldl keepCheaper (some acc) = some q ∧ (q = acc ∨ q ∈ l) ∧
      q.price ≤ acc.price ∧ ∀ x ∈ l, q.price ≤ x.price := by
  induction l generalizing acc with
  | nil => exact ⟨acc, rfl, Or.inl rfl, le_refl _, by simp⟩
  | cons hd tl ih =>
    by_cases h : hd.price < acc.price
    · obtain ⟨q, hq, hmem, hle, hall⟩ := ih hd
      refine ⟨q, ?_, ?_, ?_, ?_⟩
      · simpa [keepCheaper, h] using hq
      · rcases hmem with rfl | hmem
        · exact Or.inr (List.mem_cons_self _ _)
        · exact Or.inr (List.mem_cons_of_mem _ hmem)
      · exact le_of_lt (lt_of_le_of_lt hle h)
      · intro x hx
        rcases List.mem_cons.mp hx with rfl | hx
        · exact hle
        · exact hall x hx
    · obtain ⟨q, hq, hmem, hle, hall⟩ := ih acc
      refine ⟨q, ?_, ?_, hle, ?_⟩
      · simpa [keepCheaper, h] using hq
      · rcases hmem with rfl | hmem
        · exact Or.inl rfl
        · exact Or.inr (List.mem_cons_of_mem _ hmem)
      · intro x hx
        rcases List.mem_cons.mp hx with rfl | hx
        · exact le_trans hle (not_lt.mp h)
        · exact hall x hx

/-- `firstMin` returns a member of the sequence of minimal price. -/
theorem firstMin_spec {l : List PricePoint} {q : PricePoint}
    (h : firstMin l = some q) : q ∈ l ∧ ∀ x ∈ l, q.price ≤ x.price := by
  cases l with
  | nil => simp [firstMin] at h
  | cons hd tl =>
    obtain ⟨q', hq', hmem, hle, hall⟩ := foldl_keepCheaper_some tl hd
    have hfm : firstMin (hd :: tl) = some q' := by
      simpa [firstMin, keepCheaper] using hq'
    rw [hfm] at h
    obtain rfl : q' = q := Option.some.inj h
    constructor
    · rcases hmem with rfl | hmem
      · exact List.mem_cons_self _ _
      · exact List.mem_cons_of_mem _ hmem
    · intro x hx
      rcases List.mem_cons.mp hx with rfl | hx
      · exact hle
      · exact hall x hx

/-- `firstMin` is `none` exactly on the empty sequence. -/
theorem firstMin_none_iff (l : List PricePoint) : firstMin l = none ↔ l = [] := by
  cases l with
  | nil => simp [firstMin]
  | cons hd tl =>
    obtain ⟨q', hq', -, -, -⟩ := foldl_keepCheaper_some tl hd
    have hfm : firstMin (hd :: tl) = some q' := by
      simpa [firstMin, keepCheaper] using hq'
    simp [hfm]

theorem firstMin_snoc (l : List PricePoint) (p : PricePoint) :
    firstMin (l ++ [p]) = keepCheaper (firstMin l) p := by
  simp [firstMin, List.foldl_append]

theorem mem_scopeT {t : String} {pts : List PricePoint} {x : PricePoint} :
    x ∈ scopeT t pts ↔ x ∈ pts ∧ x.iType = t := by
  simp [scopeT, List.mem_filter]

theorem mem_scopeTR {t r : String} {pts : List PricePoint} {x : PricePoint} :
    x ∈ scopeTR t r pts ↔ x ∈ pts ∧ x.iType = t ∧ x.region = r := by
  simp [scopeTR, List.mem_filter, and_assoc]

theorem scopeT_snoc (t : String) (pts : List PricePoint) (p : PricePoint) :
    scopeT t (pts ++ [p]) =
      scopeT t pts ++ (if p.iType = t then [p] else []) := by
  by_cases h : p.iType = t <;> simp [scopeT, List.filter_append, h]

theorem scopeTR_snoc (t r : String) (pts : List PricePoint) (p : PricePoint) :
    scopeTR t r (pts ++ [p]) =
      scopeTR t r pts ++ (if p.iType = t ∧ p.region = r then [p] else []) := by
  by_cases h1 : p.iType = t <;> by_cases h2 : p.region = r <;>
    simp [scopeTR, List.filter_append, h1, h2]

/-! ### The table invariant maintained by sequential ingestion -/

theorem lookupA_setA {α : Type} (k k₀ : String) (v : α) (m : List (String × α)) :
    lookupA k₀ (setA k v m) = if k = k₀ then some v else lookupA k₀ m := by
  by_cases h : k = k₀
  · subst h
    simp [lookupA_setA_self]
  · simp [h, lookupA_setA_other k k₀ v m (Ne.symm h)]

theorem lookupA_foldl_setA {α : Type} (f : String → α) (l : List String)
    (m0 : List (String × α)) (k : String) :
    lookupA k (l.foldl (fun m x => setA x (f x) m) m0) =
      if k ∈ l then some (f k) else lookupA k m0 := by
  induction l generalizing m0 with
  | nil => simp
  | cons hd tl ih =>
    simp only [List.foldl_cons]
    rw [ih]
    by_cases h : k ∈ tl
    · simp [h, List.mem_cons]
    · by_cases h2 : hd = k
      · subst h2
        simp [h, lookupA_setA_self]
      · simp [h, h2, Ne.symm h2, lookupA_setA_other hd k (f hd) m0 (Ne.symm h2),
          List.mem_cons]

/-- The invariant tying the price table after ingesting the sequence `pts`
to the characterization by `firstMin`: the table's key sets are exactly
the initialized instance types and regions (with az keys in
first-observation order), and each memoized cheapest pointer equals the
first-observed point of minimal price in its scope. -/
structure TableInv (tKeys rKeys : List String) (pts : List PricePoint)
    (s : PriceResult) : Prop where
  domT : ∀ t, (lookupA t s.instanceTypes).isSome ↔ t ∈ tKeys
  domR : ∀ t tEnt, lookupA t s.instanceTypes = some tEnt →
      ∀ r, (lookupA r tEnt.regions).isSome ↔ r ∈ rKeys
  azDom : ∀ t tEnt r rEnt, lookupA t s.instanceTypes = some tEnt →
      lookupA r tEnt.regions = some rEnt →
      ∀ a, (lookupA a rEnt.azs).isSome ↔ a ∈ (scopeTR t r pts).map PricePoint.az
  chAz : ∀ t tEnt r rEnt, lookupA t s.instanceTypes = some tEnt →
      lookupA r tEnt.regions = some rEnt →
      rEnt.cheapestAz = (firstMin (scopeTR t r pts)).map azOf
  chReg : ∀ t tEnt, lookupA t s.instanceTypes = some tEnt →
      tEnt.cheapestRegion = (firstMin (scopeT t pts)).map PricePoint.region
  chIT : s.cheapestIType = (firstMin pts).map PricePoint.iType

/-- The pre-populated table satisfies the invariant for the empty
sequence. -/
theorem tableInv_init (tKeys rKeys : List String) :
    TableInv tKeys rKeys [] (initPriceResult tKeys rKeys) := by
  have hT : ∀ t, lookupA t (initPriceResult tKeys rKeys).instanceTypes =
      if t ∈ tKeys then some ⟨t, initRegions rKeys, none⟩ else none := by
    intro t
    simpa [initPriceResult] using
      lookupA_foldl_setA (fun t => (⟨t, initRegions rKeys, none⟩ : PriceIType)) tKeys [] t
  have hR : ∀ r, lookupA r (initRegions rKeys) =
      if r ∈ rKeys then some ⟨r, [], none⟩ else none := by
    intro r
    simpa [initRegions] using
      lookupA_foldl_setA (fun r => (⟨r, [], none⟩ : PriceRegion)) rKeys [] r
  refine ⟨?_, ?_, ?_, ?_, ?_, rfl⟩
  · intro t
    rw [hT t]
    by_cases h : t ∈ tKeys <;> simp [h]
  · intro t tEnt hEnt r
    rw [hT t] at hEnt
    by_cases h : t ∈ tKeys
    · rw [if_pos h] at hEnt
      obtain rfl := Option.some.inj hEnt
      rw [hR r]
      by_cases h2 : r ∈ rKeys <;> simp [h2]
    · rw [if_neg h] at hEnt
      exact Option.noConfusion hEnt
  · intro t tEnt r rEnt hEnt hREnt a
    rw [hT t] at hEnt
    by_cases h : t ∈ tKeys
    · rw [if_pos h] at hEnt
      obtain rfl := Option.some.inj hEnt
      rw [hR r] at hREnt
      by_cases h2 : r ∈ rKeys
      · rw [if_pos h2] at hREnt
        obtain rfl := Option.some.inj hREnt
        simp [scopeTR, lookupA]
      · rw [if_neg h2] at hREnt
        exact Option.noConfusion hREnt
    · rw [if_neg h] at hEnt
      exact Option.noConfusion hEnt
  · intro t tEnt r rEnt hEnt hREnt
    rw [hT t] at hEnt
    by_cases h : t ∈ tKeys
    · rw [if_pos h] at hEnt
      obtain rfl := Option.some.inj hEnt
      rw [hR r] at hREnt
      by_cases h2 : r ∈ rKeys
      · rw [if_pos h2] at hREnt
        obtain rfl := Option.some.inj hREnt
        simp [scopeTR, firstMin]
      · rw [if_neg h2] at hREnt
        exact Option.noConfusion hREnt
    · rw [if_neg h] at hEnt
      exact Option.noConfusion hEnt
  · intro t tEnt hEnt
    rw [hT t] at hEnt
    by_cases h : t ∈ tKeys
    · rw [if_pos h] at hEnt
      obtain rfl := Option.some.inj hEnt
      simp [scopeT, firstMin]
    · rw [if_neg h] at hEnt
      exact Option.noConfusion hEnt

theorem firstMin_of_mem {l : List PricePoint} {x : PricePoint} (hx : x ∈ l) :
    ∃ q, firstMin l = some q := by
  cases hfm : firstMin l with
  | none =>
    rw [firstMin_none_iff] at hfm
    subst hfm
    exact absurd hx (List.not_mem_nil x)
  | some q => exact ⟨q, rfl⟩

/-- The first `setCheapest` block updates a region's `CheapestAz` pointer
exactly as `keepCheaper` extends the first-observed minimum of its
scope. -/
theorem stepAz_char {reg0 : String} {azs0 : List (String × PriceAz)}
    {ch0 : Option PriceAz} {sc : List PricePoint} {p : PricePoint}
    (h : ch0 = (firstMin sc).map azOf) :
    stepAz ⟨reg0, azs0, ch0⟩ (azOf p) =
      ⟨reg0, azs0, (firstMin (sc ++ [p])).map azOf⟩ := by
  subst h
  rw [firstMin_snoc]
  rcases hq : firstMin sc with _ | q
  · simp [stepAz, keepCheaper]
  · simp only [Option.map_some', stepAz, keepCheaper]
    by_cases hlt : p.price < q.price
    · simp [azOf, hlt]
    · simp [azOf, hlt]

/-- The second `setCheapest` block updates the `CheapestRegion` pointer to
the region of the first-observed minimum of the instance-type scope,
provided the regions map already carries the az-level characterization
for the extended sequence. -/
theorem stepRegion_char {t0 : String} {regs0 : List (String × PriceRegion)}
    {ch0 : Option String} {pts : List PricePoint} {p : PricePoint}
    {rKeys : List String}
    (hch : ch0 = (firstMin (scopeT p.iType pts)).map PricePoint.region)
    (hreg : ∀ r' rEnt', lookupA r' regs0 = some rEnt' →
      rEnt'.cheapestAz = (firstMin (scopeTR p.iType r' (pts ++ [p]))).map azOf)
    (hdom : ∀ r' ∈ rKeys, (lookupA r' regs0).isSome)
    (hsc : ∀ q ∈ pts, q.region ∈ rKeys) :
    stepRegion ⟨t0, regs0, ch0⟩ p.region (azOf p) =
      some ⟨t0, regs0,
        (firstMin (scopeT p.iType (pts ++ [p]))).map PricePoint.region⟩ := by
  subst hch
  have hscT : scopeT p.iType (pts ++ [p]) = scopeT p.iType pts ++ [p] := by
    rw [scopeT_snoc]
    simp
  rw [hscT, firstMin_snoc]
  rcases hq : firstMin (scopeT p.iType pts) with _ | q
  · simp [stepRegion, keepCheaper]
  · simp only [Option.map_some']
    obtain ⟨hqmem, hqmin⟩ := firstMin_spec hq
    have hqpts : q ∈ pts := (mem_scopeT.mp hqmem).1
    have hqt : q.iType = p.iType := (mem_scopeT.mp hqmem).2
    obtain ⟨crEnt, hcr⟩ := Option.isSome_iff_exists.mp (hdom q.region (hsc q hqpts))
    have hcrch := hreg q.region crEnt hcr
    have hqsc : q ∈ scopeTR p.iType q.region (pts ++ [p]) :=
      mem_scopeTR.mpr ⟨List.mem_append_left _ hqpts, hqt, rfl⟩
    obtain ⟨v, hv⟩ := firstMin_of_mem hqsc
    obtain ⟨hvmem, hvmin⟩ := firstMin_spec hv
    rw [hv] at hcrch
    simp only [Option.map_some'] at hcrch
    simp only [stepRegion, hcr, hcrch, keepCheaper]
    by_cases hlt : p.price < q.price
    · rw [if_pos hlt]
      rcases List.mem_append.mp (mem_scopeTR.mp hvmem).1 with hvp | hvp
      · have h2 : v ∈ scopeT p.iType pts :=
          mem_scopeT.mpr ⟨hvp, (mem_scopeTR.mp hvmem).2.1⟩
        have h3 : p.price < v.price := lt_of_lt_of_le hlt (hqmin v h2)
        simp [azOf, h3]
      · obtain rfl : v = p := List.mem_singleton.mp hvp
        have hpr : v.region = q.region := (mem_scopeTR.mp hvmem).2.2
        simp [azOf, hpr]
    · rw [if_neg hlt]
      have h3 : ¬ (p.price < v.price) :=
        not_lt.mpr (le_trans (hvmin q hqsc) (not_lt.mp hlt))
      simp [azOf, h3]

/-- The third `setCheapest` block updates the global `CheapestIType`
pointer to the instance type of the first-observed minimum of the whole
sequence, provided the table already carries the region- and az-level
characterizations for the extended sequence. -/
theorem stepIType_char {its0 : List (String × PriceIType)} {ch0 : Option String}
    {pts : List PricePoint} {p : PricePoint} {tKeys rKeys : List String}
    (hch : ch0 = (firstMin pts).map PricePoint.iType)
    (hT : ∀ t' tEnt', lookupA t' its0 = some tEnt' →
        tEnt'.cheapestRegion = (firstMin (scopeT t' (pts ++ [p]))).map PricePoint.region)
    (hAz : ∀ t' tEnt' r' rEnt', lookupA t' its0 = some tEnt' →
        lookupA r' tEnt'.regions = some rEnt' →
        rEnt'.cheapestAz = (firstMin (scopeTR t' r' (pts ++ [p]))).map azOf)
    (hTdom : ∀ t' ∈ tKeys, (lookupA t' its0).isSome)
    (hRdom : ∀ t' tEnt', lookupA t' its0 = some tEnt' →
        ∀ r' ∈ rKeys, (lookupA r' tEnt'.regions).isSome)
    (hscope : ∀ q ∈ pts, q.iType ∈ tKeys ∧ q.region ∈ rKeys)
    (hpR : p.region ∈ rKeys) :
    stepIType ⟨its0, ch0⟩ p.iType (azOf p) =
      some ⟨its0, (firstMin (pts ++ [p])).map PricePoint.iType⟩ := by
  subst hch
  rw [firstMin_snoc]
  rcases hg : firstMin pts with _ | g
  · simp [stepIType, keepCheaper]
  · simp only [Option.map_some']
    obtain ⟨hgmem, hgmin⟩ := firstMin_spec hg
    obtain ⟨ciEnt, hci⟩ := Option.isSome_iff_exists.mp (hTdom g.iType (hscope g hgmem).1)
    have hcireg := hT g.iType ciEnt hci
    have hgsc : g ∈ scopeT g.iType (pts ++ [p]) :=
      mem_scopeT.mpr ⟨List.mem_append_left _ hgmem, rfl⟩
    obtain ⟨w, hw⟩ := firstMin_of_mem hgsc
    obtain ⟨hwmem, hwmin⟩ := firstMin_spec hw
    rw [hw] at hcireg
    simp only [Option.map_some'] at hcireg
    have hwpr : w.region ∈ rKeys := by
      rcases List.mem_append.mp (mem_scopeT.mp hwmem).1 with h | h
      · exact (hscope w h).2
      · obtain rfl : w = p := List.mem_singleton.mp h
        exact hpR
    obtain ⟨crEnt, hcr⟩ := Option.isSome_iff_exists.mp (hRdom _ _ hci _ hwpr)
    have hcrch := hAz g.iType ciEnt w.region crEnt hci hcr
    have hwsc : w ∈ scopeTR g.iType w.region (pts ++ [p]) :=
      mem_scopeTR.mpr ⟨(mem_scopeT.mp hwmem).1, (mem_scopeT.mp hwmem).2, rfl⟩
    obtain ⟨v, hv⟩ := firstMin_of_mem hwsc
    obtain ⟨hvmem, hvmin⟩ := firstMin_spec hv
    rw [hv] at hcrch
    simp only [Option.map_some'] at hcrch
    simp only [stepIType, hci, hcireg, hcr, hcrch, keepCheaper]
    by_cases hlt : p.price < g.price
    · rw [if_pos hlt]
      rcases List.mem_append.mp (mem_scopeTR.mp hvmem).1 with hvp | hvp
      · have h3 : p.price < v.price := lt_of_lt_of_le hlt (hgmin v hvp)
        simp [azOf, h3]
      · obtain rfl : v = p := List.mem_singleton.mp hvp
        have hpi : v.iType = g.iType := (mem_scopeTR.mp hvmem).2.1
        simp [azOf, hpi]
    · rw [if_neg hlt]
      have h4 : v.price ≤ g.price :=
        le_trans (hvmin w hwsc) (hwmin g hgsc)
      have h3 : ¬ (p.price < v.price) :=
        not_lt.mpr (le_trans h4 (not_lt.mp hlt))
      simp [azOf, h3]

/-- Ingesting one in-domain price point preserves the table invariant
(and does not panic). -/
theorem tableInv_step {tKeys rKeys : List String} {pts : List PricePoint}
    {s : PriceResult} (inv : TableInv tKeys rKeys pts s) {p : PricePoint}
    (hpts : ∀ q ∈ pts, q.iType ∈ tKeys ∧ q.region ∈ rKeys)
    (hpT : p.iType ∈ tKeys) (hpR : p.region ∈ rKeys) :
    ∃ s', ingestPoint s p = some s' ∧ TableInv tKeys rKeys (pts ++ [p]) s' := by
  obtain ⟨sits, sch⟩ := s
  obtain ⟨tEnt, htEnt⟩ := Option.isSome_iff_exists.mp ((inv.domT p.iType).mpr hpT)
  obtain ⟨rEnt, hrEnt⟩ :=
    Option.isSome_iff_exists.mp ((inv.domR _ _ htEnt p.region).mpr hpR)
  obtain ⟨tt, tregs, tch⟩ := tEnt
  obtain ⟨rr, razs, rch⟩ := rEnt
  set azs1 : List (String × PriceAz) := setA p.az (azOf p) razs with hazs1
  set rEntA : PriceRegion := ⟨rr, azs1, rch⟩ with hrEntA
  set chAz1 : Option PriceAz :=
    (firstMin (scopeTR p.iType p.region pts ++ [p])).map azOf with hchAz1
  set rEntB : PriceRegion := ⟨rr, azs1, chAz1⟩ with hrEntB
  set regs1 : List (String × PriceRegion) :=
    setA p.region rEntB (setA p.region rEntA tregs) with hregs1
  set chReg1 : Option String :=
    (firstMin (scopeT p.iType (pts ++ [p]))).map PricePoint.region with hchReg1
  set tEntC : PriceIType := ⟨tt, regs1, chReg1⟩ with htEntC
  set tEntA : PriceIType := ⟨tt, setA p.region rEntA tregs, tch⟩ with htEntA
  set its1 : List (String × PriceIType) :=
    setA p.iType tEntC (setA p.iType tEntA sits) with hits1
  set sFin : PriceResult :=
    ⟨its1, (firstMin (pts ++ [p])).map PricePoint.iType⟩ with hsFin
  -- the first setCheapest block
  have hch0 : rch = (firstMin (scopeTR p.iType p.region pts)).map azOf :=
    inv.chAz _ _ _ _ htEnt hrEnt
  have hstep1 : stepAz rEntA (azOf p) = rEntB := stepAz_char hch0
  -- the regions map after both writes at key p.region
  have hlook1 : ∀ r', lookupA r' regs1 =
      if p.region = r' then some rEntB else lookupA r' tregs := by
    intro r'
    rw [hregs1, lookupA_setA, lookupA_setA]
    by_cases h : p.region = r' <;> simp [h]
  have hreg : ∀ r' rEnt'', lookupA r' regs1 = some rEnt'' →
      rEnt''.cheapestAz = (firstMin (scopeTR p.iType r' (pts ++ [p]))).map azOf := by
    intro r' rEnt'' hl
    rw [hlook1 r'] at hl
    by_cases h : p.region = r'
    · subst h
      rw [if_pos rfl] at hl
      obtain rfl := Option.some.inj hl
      rw [scopeTR_snoc, if_pos ⟨rfl, rfl⟩]
    · rw [if_neg h] at hl
      have hold := inv.chAz p.iType ⟨tt, tregs, tch⟩ r' rEnt'' htEnt hl
      rw [scopeTR_snoc, if_neg (fun hc => h hc.2), List.append_nil]
      exact hold
  have hdom : ∀ r' ∈ rKeys, (lookupA r' regs1).isSome := by
    intro r' hr'
    rw [hlook1 r']
    by_cases h : p.region = r'
    · simp [h]
    · rw [if_neg h]
      exact (inv.domR _ _ htEnt r').mpr hr'
  have hchReg : tch = (firstMin (scopeT p.iType pts)).map PricePoint.region :=
    inv.chReg _ _ htEnt
  have hstep2 : stepRegion ⟨tt, regs1, tch⟩ p.region (azOf p) = some tEntC :=
    stepRegion_char hchReg hreg hdom (fun q hq => (hpts q hq).2)
  -- the instance-type map after both writes at key p.iType
  have hlook2 : ∀ t', lookupA t' its1 =
      if p.iType = t' then some tEntC else lookupA t' sits := by
    intro t'
    rw [hits1, lookupA_setA, lookupA_setA]
    by_cases h : p.iType = t' <;> simp [h]
  have hT : ∀ t' tEnt'', lookupA t' its1 = some tEnt'' →
      tEnt''.cheapestRegion = (firstMin (scopeT t' (pts ++ [p]))).map PricePoint.region := by
    intro t' tEnt'' hl
    rw [hlook2 t'] at hl
    by_cases h : p.iType = t'
    · subst h
      rw [if_pos rfl] at hl
      obtain rfl := Option.some.inj hl
      rfl
    · rw [if_neg h] at hl
      have hold := inv.chReg t' tEnt'' hl
      rw [scopeT_snoc, if_neg h, List.append_nil]
      exact hold
  have hAz : ∀ t' tEnt'' r' rEnt'', lookupA t' its1 = some tEnt'' →
      lookupA r' tEnt''.regions = some rEnt'' →
      rEnt''.cheapestAz = (firstMin (scopeTR t' r' (pts ++ [p]))).map azOf := by
    intro t' tEnt'' r' rEnt'' hl hlr
    rw [hlook2 t'] at hl
    by_cases h : p.iType = t'
    · subst h
      rw [if_pos rfl] at hl
      obtain rfl := Option.some.inj hl
      exact hreg r' rEnt'' hlr
    · rw [if_neg h] at hl
      have hold := inv.chAz t' tEnt'' r' rEnt'' hl hlr
      rw [scopeTR_snoc, if_neg (fun hc => h hc.1), List.append_nil]
      exact hold
  have hTdom : ∀ t' ∈ tKeys, (lookupA t' its1).isSome := by
    intro t' ht'
    rw [hlook2 t']
    by_cases h : p.iType = t'
    · simp [h]
    · rw [if_neg h]
      exact (inv.domT t').mpr ht'
  have hRdom : ∀ t' tEnt'', lookupA t' its1 = some tEnt'' →
      ∀ r' ∈ rKeys, (lookupA r' tEnt''.regions).isSome := by
    intro t' tEnt'' hl r' hr'
    rw [hlook2 t'] at hl
    by_cases h : p.iType = t'
    · subst h
      rw [if_pos rfl] at hl
      obtain rfl := Option.some.inj hl
      exact hdom r' hr'
    · rw [if_neg h] at hl
      exact (inv.domR t' tEnt'' hl r').mpr hr'
  have hstep3 : stepIType ⟨its1, sch⟩ p.iType (azOf p) = some sFin :=
    stepIType_char inv.chIT hT hAz hTdom hRdom hpts hpR
  -- the full computation of ingestPoint
  have htEnt' : lookupA p.iType sits = some ⟨tt, tregs, tch⟩ := htEnt
  have hrEnt' : lookupA p.region tregs = some ⟨rr, razs, rch⟩ := hrEnt
  have hql1 : lookupA p.iType (setA p.iType tEntA sits) = some tEntA :=
    lookupA_setA_self _ _ _
  have hql2 : lookupA p.region tEntA.regions = some rEntA :=
    lookupA_setA_self _ _ _
  have hcomp : ingestPoint ⟨sits, sch⟩ p = some sFin := by
    have e1 : ingestPoint ⟨sits, sch⟩ p =
        setCheapest ⟨setA p.iType tEntA sits, sch⟩ p.iType p.region (azOf p) := by
      simp only [ingestPoint, htEnt', Option.some_bind, hrEnt']
    rw [e1]
    simp only [setCheapest, hql1, Option.some_bind, hql2]
    rw [hstep1]
    have hmk : (⟨tEntA.iType, setA p.region rEntB tEntA.regions,
        tEntA.cheapestRegion⟩ : PriceIType) = ⟨tt, regs1, tch⟩ := by
      rw [htEntA, hregs1]
    rw [hmk, hstep2]
    simp only [Option.some_bind]
    rw [← hits1]
    exact hstep3
  refine ⟨sFin, hcomp, ?_, ?_, ?_, hAz, hT, rfl⟩
  · -- domain of the instance-type map
    intro t
    show (lookupA t its1).isSome ↔ t ∈ tKeys
    rw [hlook2 t]
    by_cases h : p.iType = t
    · subst h
      simp [hpT]
    · rw [if_neg h]
      exact inv.domT t
  · -- domain of each regions map
    intro t tEnt'' hl r'
    have hl' : lookupA t its1 = some tEnt'' := hl
    rw [hlook2 t] at hl'
    by_cases h : p.iType = t
    · subst h
      rw [if_pos rfl] at hl'
      obtain rfl := Option.some.inj hl'
      show (lookupA r' regs1).isSome ↔ r' ∈ rKeys
      rw [hlook1 r']
      by_cases h2 : p.region = r'
      · subst h2
        simp [hpR]
      · rw [if_neg h2]
        exact inv.domR _ _ htEnt r'
    · rw [if_neg h] at hl'
      exact inv.domR t tEnt'' hl' r'
  · -- domain of each az map
    intro t tEnt'' r' rEnt'' hl hlr a
    have hl' : lookupA t its1 = some tEnt'' := hl
    rw [hlook2 t] at hl'
    by_cases h : p.iType = t
    · subst h
      rw [if_pos rfl] at hl'
      obtain rfl := Option.some.inj hl'
      have hlr' : lookupA r' regs1 = some rEnt'' := hlr
      rw [hlook1 r'] at hlr'
      by_cases h2 : p.region = r'
      · subst h2
        rw [if_pos rfl] at hlr'
        obtain rfl := Option.some.inj hlr'
        show (lookupA a azs1).isSome ↔
          a ∈ (scopeTR p.iType p.region (pts ++ [p])).map PricePoint.az
        rw [scopeTR_snoc,
          if_pos (show p.iType = p.iType ∧ p.region = p.region from ⟨rfl, rfl⟩),
          List.map_append, hazs1, lookupA_setA]
        have hold := inv.azDom _ _ _ _ htEnt hrEnt a
        by_cases ha : p.az = a
        · subst ha
          simp
        · rw [if_neg ha]
          simp [List.mem_append, hold, Ne.symm ha]
      · rw [if_neg h2] at hlr'
        have hold := inv.azDom p.iType ⟨tt, tregs, tch⟩ r' rEnt'' htEnt hlr' a
        rw [scopeTR_snoc, if_neg (fun hc => h2 hc.2), List.append_nil]
        exact hold
    · rw [if_neg h] at hl'
      have hold := inv.azDom t tEnt'' r' rEnt'' hl' hlr a
      rw [scopeTR_snoc, if_neg (fun hc => h hc.1), List.append_nil]
      exact hold

theorem ingestAll_append (l1 l2 : List PricePoint) (s : PriceResult) :
    ingestAll s (l1 ++ l2) = (ingestAll s l1).bind fun s' => ingestAll s' l2 := by
  induction l1 generalizing s with
  | nil => simp [ingestAll]
  | cons hd tl ih =>
    simp only [ingestAll, List.cons_append, List.foldlM_cons] at *
    cases ingestPoint s hd with
    | none => simp
    | some s1 => simp [ih s1]

/-- Ingesting any in-domain sequence into the pre-populated table never
panics and yields a state satisfying the invariant. -/
theorem tableInv_all (tKeys rKeys : List String) (pts : List PricePoint)
    (hdom : ∀ q ∈ pts, q.iType ∈ tKeys ∧ q.region ∈ rKeys) :
    ∃ s, ingestAll (initPriceResult tKeys rKeys) pts = some s ∧
      TableInv tKeys rKeys pts s := by
  induction pts using List.reverseRecOn with
  | nil => exact ⟨_, rfl, tableInv_init tKeys rKeys⟩
  | append_singleton l a ih =>
    obtain ⟨s, hs, inv⟩ := ih (fun q hq => hdom q (List.mem_append_left _ hq))
    have ha := hdom a (List.mem_append_right _ (List.mem_singleton_self a))
    obtain ⟨s', hstep, inv'⟩ :=
      tableInv_step inv (fun q hq => hdom q (List.mem_append_left _ hq)) ha.1 ha.2
    refine ⟨s', ?_, inv'⟩
    rw [ingestAll_append, hs]
    simpa [ingestAll] using hstep

/-- C1 (amended): for every non-empty instance-type list and every fixed
in-domain sequence of price points ingested sequentially, ingestion never
panics, and after the whole sequence each of the three memoized cheapest
pointers equals the first-observed point of minimal price within its
scope (so exact price ties leave the first-observed point in place); the
global and region-level pointers name instance-type/region entries that
exist in the table, and the az-level pointer references a
previously-observed point of its scope whose az key exists in the table
and whose price is ≤ the price of every point observed so far in scope.
(As originally stated — the az pointer referencing "an entry that exists
in the table" — the claim fails when one az is re-ingested at a higher
price; see the counterexample.) -/
theorem setCheapest_pointers_invariant (tKeys rKeys : List String)
    (pts : List PricePoint) (_hne : tKeys ≠ [])
    (hdom : ∀ q ∈ pts, q.iType ∈ tKeys ∧ q.region ∈ rKeys) :
    ∃ s, ingestAll (initPriceResult tKeys rKeys) pts = some s ∧
      s.cheapestIType = (firstMin pts).map PricePoint.iType ∧
      (∀ t tEnt, lookupA t s.instanceTypes = some tEnt →
        tEnt.cheapestRegion = (firstMin (scopeT t pts)).map PricePoint.region) ∧
      (∀ t tEnt r rEnt, lookupA t s.instanceTypes = some tEnt →
        lookupA r tEnt.regions = some rEnt →
        rEnt.cheapestAz = (firstMin (scopeTR t r pts)).map azOf) ∧
      (∀ ci, s.cheapestIType = some ci → (lookupA ci s.instanceTypes).isSome) ∧
      (∀ t tEnt cr, lookupA t s.instanceTypes = some tEnt →
        tEnt.cheapestRegion = some cr → (lookupA cr tEnt.regions).isSome) ∧
      (∀ t tEnt r rEnt ca, lookupA t s.instanceTypes = some tEnt →
        lookupA r tEnt.regions = some rEnt → rEnt.cheapestAz = some ca →
        (∃ q ∈ pts, q.iType = t ∧ q.region = r ∧ azOf q = ca ∧
          (lookupA q.az rEnt.azs).isSome) ∧
        ∀ x ∈ pts, x.iType = t → x.region = r → ca.curPrice ≤ x.price) := by
  obtain ⟨s, hs, inv⟩ := tableInv_all tKeys rKeys pts hdom
  refine ⟨s, hs, inv.chIT, inv.chReg, inv.chAz, ?_, ?_, ?_⟩
  · -- the cheapest instance type is a key of the table
    intro ci hci
    rw [inv.chIT] at hci
    cases hfm : firstMin pts with
    | none => rw [hfm] at hci; exact Option.noConfusion hci
    | some g =>
      rw [hfm] at hci
      obtain rfl := Option.some.inj hci
      exact (inv.domT _).mpr (hdom g (firstMin_spec hfm).1).1
  · -- each cheapest region is a key of its instance type's regions map
    intro t tEnt cr hEnt hcr
    rw [inv.chReg t tEnt hEnt] at hcr
    cases hfm : firstMin (scopeT t pts) with
    | none => rw [hfm] at hcr; exact Option.noConfusion hcr
    | some q =>
      rw [hfm] at hcr
      obtain rfl := Option.some.inj hcr
      have hq : q ∈ pts := (mem_scopeT.mp (firstMin_spec hfm).1).1
      exact (inv.domR t tEnt hEnt _).mpr (hdom q hq).2
  · -- the cheapest az references an observed point of minimal price whose
    -- az key is in the table
    intro t tEnt r rEnt ca hEnt hREnt hca
    rw [inv.chAz t tEnt r rEnt hEnt hREnt] at hca
    cases hfm : firstMin (scopeTR t r pts) with
    | none => rw [hfm] at hca; exact Option.noConfusion hca
    | some q =>
      rw [hfm] at hca
      obtain rfl := Option.some.inj hca
      obtain ⟨hqmem, hqmin⟩ := firstMin_spec hfm
      obtain ⟨hqpts, hqt, hqr⟩ := mem_scopeTR.mp hqmem
      constructor
      · refine ⟨q, hqpts, hqt, hqr, rfl, ?_⟩
        rw [inv.azDom t tEnt r rEnt hEnt hREnt q.az]
        exact List.mem_map_of_mem PricePoint.az hqmem
      · intro x hx hxt hxr
        exact hqmin x (mem_scopeTR.mpr ⟨hx, hxt, hxr⟩)

/-- A concrete two-point input sequence with a price tie, used to
instantiate the invariant. -/
def c1Pts : List PricePoint := [⟨"t1", "r1", "a", 3⟩, ⟨"t1", "r1", "b", 3⟩]

/-- Witness for C1 (amended) at a concrete two-point tie: the second point
ties on price, and all pointers keep the first-observed point. -/
theorem setCheapest_pointers_invariant_witness :
    ∃ s, ingestAll (initPriceResult ["t1"] ["r1"]) c1Pts = some s ∧
      s.cheapestIType = (firstMin c1Pts).map PricePoint.iType ∧
      (∀ t tEnt, lookupA t s.instanceTypes = some tEnt →
        tEnt.cheapestRegion = (firstMin (scopeT t c1Pts)).map PricePoint.region) ∧
      (∀ t tEnt r rEnt, lookupA t s.instanceTypes = some tEnt →
        lookupA r tEnt.regions = some rEnt →
        rEnt.cheapestAz = (firstMin (scopeTR t r c1Pts)).map azOf) ∧
      (∀ ci, s.cheapestIType = some ci → (lookupA ci s.instanceTypes).isSome) ∧
      (∀ t tEnt cr, lookupA t s.instanceTypes = some tEnt →
        tEnt.cheapestRegion = some cr → (lookupA cr tEnt.regions).isSome) ∧
      (∀ t tEnt r rEnt ca, lookupA t s.instanceTypes = some tEnt →
        lookupA r tEnt.regions = some rEnt → rEnt.cheapestAz = some ca →
        (∃ q ∈ c1Pts, q.iType = t ∧ q.region = r ∧ azOf q = ca ∧
          (lookupA q.az rEnt.azs).isSome) ∧
        ∀ x ∈ c1Pts, x.iType = t → x.region = r → ca.curPrice ≤ x.price) :=
  setCheapest_pointers_invariant ["t1"] ["r1"] c1Pts (by decide) (by decide)

/-- C1 counterexample to the claim as stated: re-ingesting availability
zone `"a"` at a higher price replaces the table entry (`Azs["a"]` now
holds price 7) but leaves the region's `CheapestAz` pointer on the old
point of price 3 — the referenced price point no longer exists in the
table, even though its price is still minimal. -/
theorem setCheapest_dangling_pointer_cex :
    ((ingestAll (initPriceResult ["t1"] ["r1"])
        [⟨"t1", "r1", "a", 3⟩, ⟨"t1", "r1", "a", 7⟩]).bind fun s =>
      (lookupA "t1" s.instanceTypes).bind fun tEnt =>
      (lookupA "r1" tEnt.regions).map fun rEnt =>
        (rEnt.cheapestAz, rEnt.azs)) =
      some (some ⟨"a", 3⟩, [("a", ⟨"a", 7⟩)]) ∧
    (⟨"a", (3 : ℚ)⟩ : PriceAz) ≠ (⟨"a", (7 : ℚ)⟩ : PriceAz) :=
  ⟨rfl, by decide⟩

/-! ## `cmd/spotsh/main.go`: the ssh connectivity gate (`testSsh`/`sshCommon`) -/

/-- Classification of one TCP connect probe to port 22 (`testSshOnce`
followed by `testSsh`'s error classification): success, connection
actively refused (`errors.Is(err, syscall.ECONNREFUSED)`), a `net.Error`
timeout, or any other error. -/
inductive ProbeOutcome
  | success
  | refused
  | timeout
  | otherErr
  deriving DecidableEq, Repr

/-- The retry loop of `testSsh` (`for retries := 8; retries >= 0;
retries--`), with probe results given as a stream indexed by attempt
number.  Each iteration resets `checkFirewall = false`, probes once, and
either breaks (success, or an unknown error) or sleeps and retries
(refused keeps `checkFirewall` false, timeout sets it).  Returns the last
attempt's error (`none` on success) and the final `checkFirewall` flag. -/
def testSshLoop (probe : Nat → ProbeOutcome) :
    Nat → Nat → Option ProbeOutcome × Bool
  | remaining, i =>
    match probe i with
    | .success => (none, false)
    | .otherErr => (some .otherErr, false)
    | .refused =>
        match remaining with
        | 0 => (some .refused, false)
        | r + 1 => testSshLoop probe r (i + 1)
    | .timeout =>
        match remaining with
        | 0 => (some .timeout, true)
        | r + 1 => testSshLoop probe r (i + 1)

/-- `testSsh`: nine attempts (`retries` from 8 down to 0). -/
def testSsh (probe : Nat → ProbeOutcome) : Option ProbeOutcome × Bool :=
  testSshLoop probe 8 0

/-- Observable outcome of `sshCommon`'s connectivity phase: how many times
the firewall remediation (`CheckOrAddSshIngressRule`) was invoked, whether
a second full probe sequence ran, and whether `sshCommon` returns an
error instead of reaching `execSsh`. -/
structure SshRun where
  remediations : Nat
  secondProbe : Bool
  failed : Bool
  deriving DecidableEq, Repr

/-- `sshCommon` from `cmd/spotsh/main.go` after instance selection:
`testSsh`; on error with `checkFirewall` set, invoke
`CheckOrAddSshIngressRule` once (`remOk` abstracts its success) and, if it
succeeded, run exactly one more `testSsh`; any remaining error fails the
command. -/
def sshCommon (probe1 probe2 : Nat → ProbeOutcome) (remOk : Bool) : SshRun :=
  match testSsh probe1 with
  | (none, _) => ⟨0, false, false⟩
  | (some _, cf) =>
      if cf then
        if remOk then
          match testSsh probe2 with
          | (none, _) => ⟨1, true, false⟩
          | (some _, _) => ⟨1, true, true⟩
        else ⟨1, false, true⟩
      else ⟨0, false, true⟩

/-- If every attempt of a window is refused, the loop exhausts it with a
refused error and the firewall flag clear. -/
theorem testSshLoop_all_refused (probe : Nat → ProbeOutcome) (r i : Nat)
    (h : ∀ j, i ≤ j → j ≤ i + r → probe j = .refused) :
    testSshLoop probe r i = (some .refused, false) := by
  induction r generalizing i with
  | zero =>
    have h0 : probe i = .refused := h i le_rfl (by omega)
    simp [testSshLoop, h0]
  | succ r ih =>
    have h0 : probe i = .refused := h i le_rfl (by omega)
    rw [testSshLoop, h0]
    exact ih (i + 1) (fun j h1 h2 => h j (by omega) (by omega))

/-- If every attempt of a window fails transiently (refused or timeout),
the loop exhausts it and reports the classification of the *last*
attempt: the final `checkFirewall` flag is set iff the last attempt timed
out. -/
theorem testSshLoop_all_fail (probe : Nat → ProbeOutcome) (r i : Nat)
    (h : ∀ j, i ≤ j → j ≤ i + r → probe j = .refused ∨ probe j = .timeout) :
    testSshLoop probe r i =
      (some (probe (i + r)), decide (probe (i + r) = .timeout)) := by
  induction r generalizing i with
  | zero =>
    rcases h i le_rfl (by omega) with h0 | h0 <;>
      simp [testSshLoop, h0, Nat.add_zero]
  | succ r ih =>
    have heq : i + 1 + r = i + (r + 1) := by omega
    have hrec := ih (i + 1) (fun j h1 h2 => h j (by omega) (by omega))
    rw [heq] at hrec
    rcases h i le_rfl (by omega) with h0 | h0 <;> rw [testSshLoop, h0] <;>
      exact hrec

/-- C2 (amended): in the ssh entry path, a probe sequence in which every
failed attempt is classified connection-refused never invokes the
firewall remediation; and when every attempt of the exhausted sequence
fails transiently and the *final* attempt is classified as a timeout, the
remediation is invoked exactly once, followed (when it succeeds) by
exactly one more full probe sequence, and never re-invoked even if
timeouts recur in that second sequence.  (As originally stated — "at
least one failed attempt in the sequence is a timeout" — the claim fails,
because `checkFirewall` is reset on every iteration and only the last
attempt's classification survives; see the counterexample.) -/
theorem connectivity_gate (probe1 probe2 : Nat → ProbeOutcome) (remOk : Bool) :
    ((∀ j ≤ 8, probe1 j = .refused) →
      sshCommon probe1 probe2 remOk = ⟨0, false, true⟩) ∧
    ((∀ j ≤ 8, probe1 j = .refused ∨ probe1 j = .timeout) →
      probe1 8 = .timeout →
      (sshCommon probe1 probe2 remOk).remediations = 1 ∧
        (remOk = true → (sshCommon probe1 probe2 remOk).secondProbe = true)) := by
  constructor
  · intro h
    have ht : testSsh probe1 = (some .refused, false) :=
      testSshLoop_all_refused probe1 8 0 (fun j h1 h2 => h j (by omega))
    simp [sshCommon, ht]
  · intro h h8
    have ht : testSsh probe1 = (some .timeout, true) := by
      have := testSshLoop_all_fail probe1 8 0 (fun j h1 h2 => h j (by omega))
      simpa [h8] using this
    rcases hp2 : testSsh probe2 with ⟨e2, c2⟩
    cases e2 <;> cases remOk <;> simp [sshCommon, ht, hp2]

/-- Witness for C2 (amended): all-refused never remediates; an
all-refused-then-final-timeout sequence remediates exactly once and runs
a second sequence. -/
theorem connectivity_gate_witness :
    sshCommon (fun _ => .refused) (fun _ => .refused) true = ⟨0, false, true⟩ ∧
      (sshCommon (fun j => if j < 8 then .refused else .timeout)
          (fun _ => .refused) true).remediations = 1 ∧
      (sshCommon (fun j => if j < 8 then .refused else .timeout)
          (fun _ => .refused) true).secondProbe = true :=
  ⟨(connectivity_gate (fun _ => .refused) (fun _ => .refused) true).1
      (fun j _ => rfl),
   ((connectivity_gate (fun j => if j < 8 then .refused else .timeout)
        (fun _ => .refused) true).2 (by decide) (by decide)).1,
   ((connectivity_gate (fun j => if j < 8 then .refused else .timeout)
        (fun _ => .refused) true).2 (by decide) (by decide)).2 rfl⟩

/-- C2 counterexample to the claim as stated: a sequence whose *first*
attempt times out and whose remaining eight attempts are refused exhausts
the retry budget (testSsh returns an error), contains a timeout
classification, and yet never invokes the firewall remediation, because
`checkFirewall` is reset at the top of every loop iteration. -/
theorem connectivity_gate_cex :
    (fun j => if j = 0 then ProbeOutcome.timeout else ProbeOutcome.refused) 0 =
        ProbeOutcome.timeout ∧
      testSsh (fun j => if j = 0 then .timeout else .refused) =
        (some .refused, false) ∧
      sshCommon (fun j => if j = 0 then .timeout else .refused)
          (fun _ => .refused) true = ⟨0, false, true⟩ :=
  ⟨rfl, by decide, by decide⟩

/-! ## Selection protocol (`selectOrLaunch` in `cmd/spotsh/main.go`) -/

/-- `LaunchEc2SpotResult` from `aws/spotinst.go` (the InstanceRecord).
`CurrentPrice` is a `float64` only copied and printed, embedded as `ℚ`;
`Os` is the OperatingSystem enum ordinal. -/
structure LaunchEc2SpotResult where
  publicIp : String
  instanceId : String
  user : String
  localKeyFile : String
  instanceType : String
  imageId : String
  currentPrice : ℚ
  azName : String
  dnsName : String
  os : Nat
  sgId : String
  deriving DecidableEq, Repr

/-- The ambiguity error text built by `selectOrLaunch`:
`errStr = fmt.Sprintf("%v\n\t%v:%v", errStr, lr.InstanceId, lr.PublicIp)`
folded over every candidate. -/
def ambiguityError (launchResults : List LaunchEc2SpotResult) : String :=
  launchResults.foldl
    (fun errStr lr => errStr ++ "\n\t" ++ lr.instanceId ++ ":" ++ lr.publicIp)
    "Multiple spotsh instances found; please disambiguate w/ --instance-id:"

/-- The selection phase of `selectOrLaunch` (after lookup/launch yielded a
candidate list): ambiguity guard, first-match scan, and the local-key
check. -/
def selectFrom (launchResults : List LaunchEc2SpotResult) (instanceId : String) :
    Except String LaunchEc2SpotResult :=
  if 1 < launchResults.length ∧ instanceId = "" then
    .error (ambiguityError launchResults)
  else
    match launchResults.find?
        (fun lr => instanceId == "" || instanceId == lr.instanceId) with
    | none => .error ("Could not find spotsh instance w/ id " ++ instanceId)
    | some lr =>
        if lr.localKeyFile = "" then
          .error ("Could not find local ssh key for instance w/ id " ++ lr.instanceId)
        else .ok lr

/-- `selectOrLaunch` from `cmd/spotsh/main.go`.  `lookup` abstracts
`LookupEc2Spot`, `prefs` abstracts `newLaunchArgsFromPrefs`, and
`launched` abstracts the record returned by `LaunchEc2Spot` in the
empty-list branch.  (In that branch the Go code shadows `err`, so a
launch failure is dropped and the returned record is used regardless;
`launched` is that record.) -/
def selectOrLaunch (canLaunch : Bool) (prefs : Except String Unit)
    (launched : LaunchEc2SpotResult) (instanceId : String)
    (lookup : Except String (List LaunchEc2SpotResult)) :
    Except String LaunchEc2SpotResult :=
  match lookup with
  | .error e => .error ("Failed to lookup/launch instance: " ++ e)
  | .ok launchResults =>
      if launchResults.isEmpty then
        if canLaunch then
          match prefs with
          | .error e => .error e
          | .ok _ => selectFrom [launched] instanceId
        else
          .error ("Failed to lookup/launch instance: " ++ "No spotsh instances running")
      else selectFrom launchResults instanceId

/-- The first-match scan finds the unique record carrying the requested
instance id. -/
theorem find_unique_match (results : List LaunchEc2SpotResult)
    (r : LaunchEc2SpotResult) (instanceId : String) (hne : instanceId ≠ "")
    (hrmem : r ∈ results) (hrid : r.instanceId = instanceId)
    (huniq : ∀ x ∈ results, x.instanceId = instanceId → x = r) :
    results.find? (fun lr => instanceId == "" || instanceId == lr.instanceId) =
      some r := by
  induction results with
  | nil => exact absurd hrmem (List.not_mem_nil r)
  | cons hd tl ih =>
    by_cases hh : hd.instanceId = instanceId
    · obtain rfl := huniq hd (List.mem_cons_self _ _) hh
      rw [List.find?_cons_of_pos]
      simp [hne, hh.symm]
    · have hrtl : r ∈ tl := by
        rcases List.mem_cons.mp hrmem with rfl | h
        · exact absurd hrid hh
        · exact h
      rw [List.find?_cons_of_neg]
      · exact ih hrtl (fun x hx hxe => huniq x (List.mem_cons_of_mem _ hx) hxe)
      · have hh' : instanceId ≠ hd.instanceId := fun h => hh h.symm
        simp [hne, hh']

/-- C3 (amended): for every located non-empty set of InstanceRecords
containing exactly one matching record — either no instance-id filter is
given and the set is that single record, or the given filter equals
exactly that record's instance id — and whose local key file is
non-empty, the selection protocol succeeds and returns that record.  (As
originally stated — with no condition on the local key file — the claim
fails: selection errors with "Could not find local ssh key" even for a
unique match; see the counterexample.) -/
theorem selection_unique_match (canLaunch : Bool) (prefs : Except String Unit)
    (launched : LaunchEc2SpotResult) (instanceId : String)
    (results : List LaunchEc2SpotResult) (r : LaunchEc2SpotResult)
    (hmatch : (instanceId = "" ∧ results = [r]) ∨
      (instanceId ≠ "" ∧ r ∈ results ∧ r.instanceId = instanceId ∧
        ∀ x ∈ results, x.instanceId = instanceId → x = r))
    (hkey : r.localKeyFile ≠ "") :
    selectOrLaunch canLaunch prefs launched instanceId (.ok results) = .ok r := by
  rcases hmatch with ⟨hid, hres⟩ | ⟨hne, hrmem, hrid, huniq⟩
  · subst hid
    subst hres
    simp [selectOrLaunch, selectFrom, List.find?, hkey]
  · have hnonempty : results ≠ [] := by
      intro h
      rw [h] at hrmem
      exact List.not_mem_nil r hrmem
    have hfind := find_unique_match results r instanceId hne hrmem hrid huniq
    simp only [selectOrLaunch, List.isEmpty_iff, if_neg hnonempty, selectFrom,
      hne, and_false, if_false, hfind, if_neg hkey]

/-- Witness for C3 (amended): one no-filter selection and one
filter-disambiguated selection among two records. -/
theorem selection_unique_match_witness :
    selectOrLaunch false (.ok ()) ⟨"", "", "", "", "", "", 0, "", "", 0, ""⟩ ""
        (.ok [⟨"1.2.3.4", "i-1", "ec2-user", "/k.pem", "c5.large", "ami-1", 0,
          "us-east-2a", "d1", 3, "sg-1"⟩]) =
      .ok ⟨"1.2.3.4", "i-1", "ec2-user", "/k.pem", "c5.large", "ami-1", 0,
        "us-east-2a", "d1", 3, "sg-1"⟩ ∧
    selectOrLaunch false (.ok ()) ⟨"", "", "", "", "", "", 0, "", "", 0, ""⟩ "i-2"
        (.ok [⟨"1.2.3.4", "i-1", "ec2-user", "/k.pem", "c5.large", "ami-1", 0,
            "us-east-2a", "d1", 3, "sg-1"⟩,
          ⟨"5.6.7.8", "i-2", "ec2-user", "/k2.pem", "c5.large", "ami-1", 0,
            "us-east-2b", "d2", 3, "sg-1"⟩]) =
      .ok ⟨"5.6.7.8", "i-2", "ec2-user", "/k2.pem", "c5.large", "ami-1", 0,
        "us-east-2b", "d2", 3, "sg-1"⟩ :=
  ⟨selection_unique_match false (.ok ()) _ "" _ _ (Or.inl ⟨rfl, rfl⟩) (by decide),
   selection_unique_match false (.ok ()) _ "i-2" _ _
     (Or.inr ⟨by decide, by decide, rfl, by decide⟩) (by decide)⟩

/-- C3 counterexample to the claim as stated: a located set with exactly
one record (no filter given) whose local key file is empty makes
selection fail with the missing-local-key error instead of succeeding. -/
theorem selection_missing_key_cex :
    selectOrLaunch false (.ok ()) ⟨"", "", "", "", "", "", 0, "", "", 0, ""⟩ ""
        (.ok [⟨"1.2.3.4", "i-1", "ec2-user", "", "c5.large", "ami-1", 0,
          "us-east-2a", "d1", 3, "sg-1"⟩]) =
      .error "Could not find local ssh key for instance w/ id i-1" := by
  rfl

/-- `needle` occurs contiguously inside `hay`. -/
def strContains (needle hay : String) : Prop :=
  ∃ pre post : List Char, hay.data = pre ++ needle.data ++ post

theorem data_append (a b : String) : (a ++ b).data = a.data ++ b.data := by
  cases a
  cases b
  rfl

/-- Folding further candidates onto the error string only appends text on
the right. -/
theorem ambiguityError_foldl_extends (xs : List LaunchEc2SpotResult) (b : String) :
    ∃ t : List Char,
      (xs.foldl (fun errStr lr =>
        errStr ++ "\n\t" ++ lr.instanceId ++ ":" ++ lr.publicIp) b).data =
      b.data ++ t := by
  induction xs generalizing b with
  | nil => exact ⟨[], by simp⟩
  | cons x xs ih =>
    obtain ⟨t1, ht1⟩ := ih (b ++ "\n\t" ++ x.instanceId ++ ":" ++ x.publicIp)
    refine ⟨"\n\t".data ++ x.instanceId.data ++ ":".data ++ x.publicIp.data ++ t1, ?_⟩
    simp only [List.foldl_cons, ht1, data_append, List.append_assoc]

/-- Every candidate's instance id and public address occur in the folded
error string. -/
theorem ambiguityError_mem_contains (xs : List LaunchEc2SpotResult) (b : String)
    (lr : LaunchEc2SpotResult) (hmem : lr ∈ xs) :
    strContains lr.instanceId
        (xs.foldl (fun errStr x =>
          errStr ++ "\n\t" ++ x.instanceId ++ ":" ++ x.publicIp) b) ∧
      strContains lr.publicIp
        (xs.foldl (fun errStr x =>
          errStr ++ "\n\t" ++ x.instanceId ++ ":" ++ x.publicIp) b) := by
  induction xs generalizing b with
  | nil => exact absurd hmem (List.not_mem_nil lr)
  | cons x xs ih =>
    rcases List.mem_cons.mp hmem with rfl | hmem'
    · obtain ⟨t, ht⟩ :=
        ambiguityError_foldl_extends xs (b ++ "\n\t" ++ lr.instanceId ++ ":" ++ lr.publicIp)
      constructor
      · refine ⟨b.data ++ "\n\t".data, ":".data ++ lr.publicIp.data ++ t, ?_⟩
        simp only [List.foldl_cons, ht, data_append, List.append_assoc]
      · refine ⟨b.data ++ "\n\t".data ++ lr.instanceId.data ++ ":".data, t, ?_⟩
        simp only [List.foldl_cons, ht, data_append, List.append_assoc]
    · simpa only [List.foldl_cons] using
        ih (b ++ "\n\t" ++ x.instanceId ++ ":" ++ x.publicIp) hmem'

/-- C6: for every located set of more than one record and no explicit
instance-id filter, the selection protocol fails with the ambiguity
error, whose text contains every candidate's instance id and public
address. -/
theorem selection_ambiguity (canLaunch : Bool) (prefs : Except String Unit)
    (launched : LaunchEc2SpotResult) (results : List LaunchEc2SpotResult)
    (hlen : 1 < results.length) :
    selectOrLaunch canLaunch prefs launched "" (.ok results) =
        .error (ambiguityError results) ∧
      ∀ lr ∈ results, strContains lr.instanceId (ambiguityError results) ∧
        strContains lr.publicIp (ambiguityError results) := by
  constructor
  · have hnonempty : results ≠ [] := by
      intro h
      rw [h] at hlen
      exact absurd hlen (by decide)
    simp only [selectOrLaunch, List.isEmpty_iff, if_neg hnonempty, selectFrom]
    simp [hlen]
  · intro lr hmem
    exact ambiguityError_mem_contains results _ lr hmem

/-- Witness for C6 at a concrete two-candidate set. -/
theorem selection_ambiguity_witness :
    selectOrLaunch false (.ok ()) ⟨"", "", "", "", "", "", 0, "", "", 0, ""⟩ ""
        (.ok [⟨"1.2.3.4", "i-1", "ec2-user", "/k.pem", "c5.large", "ami-1", 0,
            "us-east-2a", "d1", 3, "sg-1"⟩,
          ⟨"5.6.7.8", "i-2", "ec2-user", "/k2.pem", "c5.large", "ami-1", 0,
            "us-east-2b", "d2", 3, "sg-1"⟩]) =
      .error (ambiguityError
        [⟨"1.2.3.4", "i-1", "ec2-user", "/k.pem", "c5.large", "ami-1", 0,
            "us-east-2a", "d1", 3, "sg-1"⟩,
          ⟨"5.6.7.8", "i-2", "ec2-user", "/k2.pem", "c5.large", "ami-1", 0,
            "us-east-2b", "d2", 3, "sg-1"⟩]) ∧
    ∀ lr ∈ ([⟨"1.2.3.4", "i-1", "ec2-user", "/k.pem", "c5.large", "ami-1", 0,
            "us-east-2a", "d1", 3, "sg-1"⟩,
          ⟨"5.6.7.8", "i-2", "ec2-user", "/k2.pem", "c5.large", "ami-1", 0,
            "us-east-2b", "d2", 3, "sg-1"⟩] : List LaunchEc2SpotResult),
      strContains lr.instanceId (ambiguityError
        [⟨"1.2.3.4", "i-1", "ec2-user", "/k.pem", "c5.large", "ami-1", 0,
            "us-east-2a", "d1", 3, "sg-1"⟩,
          ⟨"5.6.7.8", "i-2", "ec2-user", "/k2.pem", "c5.large", "ami-1", 0,
            "us-east-2b", "d2", 3, "sg-1"⟩]) ∧
      strContains lr.publicIp (ambiguityError
        [⟨"1.2.3.4", "i-1", "ec2-user", "/k.pem", "c5.large", "ami-1", 0,
            "us-east-2a", "d1", 3, "sg-1"⟩,
          ⟨"5.6.7.8", "i-2", "ec2-user", "/k2.pem", "c5.large", "ami-1", 0,
            "us-east-2b", "d2", 3, "sg-1"⟩]) :=
  selection_ambiguity false (.ok ()) ⟨"", "", "", "", "", "", 0, "", "", 0, ""⟩
    _ (by decide)

/-! ## `aws/spotinst.go`: the instance locator (`lookupEc2SpotOneRegion`) -/

/-- The ownership tag key (`UserTagKey = "spotsh.user"`). -/
def UserTagKey : String := "spotsh.user"

/-- The OS tag key (`OsTagKey = "spotsh.os"`). -/
def OsTagKey : String := "spotsh.os"

/-- The fields of one described EC2 instance that
`lookupEc2SpotOneRegion` reads. -/
structure Ec2Instance where
  stateName : String
  tags : List (String × String)
  keyName : Option String
  instanceId : String
  publicIpAddress : Option String
  imageId : String
  subnetId : String
  publicDnsName : String
  instanceType : String
  securityGroupIds : List String
  deriving DecidableEq, Repr

/-- One entry of `LookupKeys`' result. -/
structure KeyItem where
  name : String
  localKeyFile : String
  deriving DecidableEq, Repr

/-- The per-instance tag scan of `lookupEc2SpotOneRegion`
(`foundSpotShTag = false; for _, tag := range inst.Tags { ... }`):
`user`/`os` are the outer-loop variables, which persist across instances
in the Go code, so they are threaded through. -/
def scanTags (tags : List (String × String)) (user os : String) :
    Bool × String × String :=
  tags.foldl
    (fun acc tag =>
      if tag.1 = UserTagKey then (true, tag.2, acc.2.2)
      else if tag.1 = OsTagKey then (acc.1, acc.2.1, tag.2)
      else acc)
    (false, user, os)

/-- The reservation/instance double loop of `lookupEc2SpotOneRegion`
(flattened, which preserves iteration order): skip non-running instances,
skip instances without the ownership tag, resolve the local key file and
the az name, and build the record.  `azOracle` abstracts
`getAzNameFromSubnetId` (an error there aborts the whole lookup); the
`SecurityGroups[0]` access panics on an instance with no security
groups. -/
def processInstances (keys : List KeyItem)
    (azOracle : String → Except String String) :
    List Ec2Instance → String → String →
      GoOutcome (List LaunchEc2SpotResult × List String)
  | [], _, _ => .ok ([], [])
  | inst :: rest, user, os =>
      if inst.stateName ≠ "running" then processInstances keys azOracle rest user os
      else
        match scanTags inst.tags user os with
        | (found, user', os') =>
            if ¬ found then processInstances keys azOracle rest user' os'
            else
              let localKeyFile :=
                match inst.keyName with
                | none => ""
                | some kn =>
                    match keys.find? (fun k => k.name == kn) with
                    | none => ""
                    | some k => k.localKeyFile
              match azOracle inst.subnetId with
              | .error e => .err e
              | .ok azName =>
                  match inst.securityGroupIds with
                  | [] => .panicked
                  | sgId :: _ =>
                      match processInstances keys azOracle rest user' os' with
                      | .err e => .err e
                      | .panicked => .panicked
                      | .ok (results, iTypes) =>
                          .ok (⟨inst.publicIpAddress.getD "", inst.instanceId,
                              user', localKeyFile, inst.instanceType,
                              inst.imageId, 0, azName, inst.publicDnsName,
                              osFromString os', sgId⟩ :: results,
                            inst.instanceType :: iTypes)

/-- `lookupEc2SpotOneRegion` from `aws/spotinst.go`: describe instances,
look up keys, filter and build records, then (when any instance was
found) back-fill each record's current price from one
`LookupEc2SpotPrices` query, abstracted as `priceLookup`. -/
def lookupEc2SpotOneRegion (region : String)
    (descResult : Except String (List (List Ec2Instance)))
    (keysResult : Except String (List KeyItem))
    (azOracle : String → Except String String)
    (priceLookup : Except String (String → String → String → ℚ)) :
    GoOutcome (List LaunchEc2SpotResult) :=
  match descResult with
  | .error e => .err e
  | .ok reservations =>
      match keysResult with
      | .error e => .err e
      | .ok keys =>
          match processInstances keys azOracle reservations.flatten "" "" with
          | .err e => .err e
          | .panicked => .panicked
          | .ok (results, iTypes) =>
              if iTypes.isEmpty then .ok results
              else
                match priceLookup with
                | .error e => .err e
                | .ok priceFor =>
                    .ok (results.map fun lr =>
                      { lr with currentPrice :=
                          priceFor lr.instanceType region lr.azName })

/-- A scan that reports the ownership tag as found saw a tag with the
ownership key. -/
theorem scanTags_found {tags : List (String × String)} {user os : String}
    (h : (scanTags tags user os).1 = true) : ∃ v, (UserTagKey, v) ∈ tags := by
  suffices haux : ∀ (acc : Bool × String × String),
      (tags.foldl (fun acc tag =>
        if tag.1 = UserTagKey then (true, tag.2, acc.2.2)
        else if tag.1 = OsTagKey then (acc.1, acc.2.1, tag.2)
        else acc) acc).1 = true →
      acc.1 = true ∨ ∃ v, (UserTagKey, v) ∈ tags by
    rcases haux (false, user, os) h with h' | h'
    · simp at h'
    · exact h'
  clear h
  induction tags with
  | nil => exact fun acc h => Or.inl h
  | cons tag rest ih =>
    intro acc h
    rw [List.foldl_cons] at h
    by_cases h1 : tag.1 = UserTagKey
    · refine Or.inr ⟨tag.2, ?_⟩
      rw [← h1]
      exact List.mem_cons_self _ _
    · rcases ih _ h with h' | ⟨v, hv⟩
      · rw [if_neg h1] at h'
        by_cases h2 : tag.1 = OsTagKey
        · rw [if_pos h2] at h'
          exact Or.inl h'
        · rw [if_neg h2] at h'
          exact Or.inl h'
      · exact Or.inr ⟨v, List.mem_cons_of_mem _ hv⟩

/-- Every record built by the instance loop comes from a running instance
carrying the ownership tag. -/
theorem processInstances_tagged (keys : List KeyItem)
    (azOracle : String → Except String String) (insts : List Ec2Instance)
    (user os : String) (results : List LaunchEc2SpotResult)
    (iTypes : List String)
    (h : processInstances keys azOracle insts user os = .ok (results, iTypes)) :
    ∀ lr ∈ results, ∃ inst ∈ insts, inst.instanceId = lr.instanceId ∧
      inst.stateName = "running" ∧ ∃ v, (UserTagKey, v) ∈ inst.tags := by
  induction insts generalizing user os results iTypes with
  | nil =>
    rw [processInstances] at h
    simp only [GoOutcome.ok.injEq, Prod.mk.injEq] at h
    obtain ⟨hres, -⟩ := h
    subst hres
    intro lr hlr
    exact absurd hlr (List.not_mem_nil lr)
  | cons inst rest ih =>
    rw [processInstances] at h
    by_cases hrun : inst.stateName ≠ "running"
    · rw [if_pos hrun] at h
      intro lr hlr
      obtain ⟨i, hi, hprop⟩ := ih user os results iTypes h lr hlr
      exact ⟨i, List.mem_cons_of_mem _ hi, hprop⟩
    · rw [if_neg hrun] at h
      rcases hscan : scanTags inst.tags user os with ⟨found, user', os'⟩
      rw [hscan] at h
      simp only [] at h
      by_cases hfound : found
      · rw [if_neg (by simpa using hfound)] at h
        cases haz : azOracle inst.subnetId with
        | error e => rw [haz] at h; exact absurd h (by simp)
        | ok azName =>
          rw [haz] at h
          cases hsg : inst.securityGroupIds with
          | nil => rw [hsg] at h; exact absurd h (by simp)
          | cons sgId sgRest =>
            rw [hsg] at h
            cases hrec : processInstances keys azOracle rest user' os' with
            | err e => rw [hrec] at h; exact absurd h (by simp)
            | panicked => rw [hrec] at h; exact absurd h (by simp)
            | ok p =>
              obtain ⟨results', iTypes'⟩ := p
              rw [hrec] at h
              simp only [GoOutcome.ok.injEq, Prod.mk.injEq] at h
              obtain ⟨hres, -⟩ := h
              subst hres
              intro lr hlr
              rcases List.mem_cons.mp hlr with rfl | hlr'
              · refine ⟨inst, List.mem_cons_self _ _, rfl, by simpa using hrun, ?_⟩
                have : (scanTags inst.tags user os).1 = true := by
                  rw [hscan]; simpa using hfound
                exact scanTags_found this
              · obtain ⟨i, hi, hprop⟩ :=
                  ih user' os' results' iTypes' hrec lr hlr'
                exact ⟨i, List.mem_cons_of_mem _ hi, hprop⟩
      · rw [if_pos (by simpa using hfound)] at h
        intro lr hlr
        obtain ⟨i, hi, hprop⟩ := ih user' os' results iTypes h lr hlr
        exact ⟨i, List.mem_cons_of_mem _ hi, hprop⟩

/-- C5: the instance locator never returns an InstanceRecord for an
instance lacking the ownership tag key: every returned record stems from
a described instance that is in the running state and carries a tag with
key `spotsh.user`, even after the price back-fill pass. -/
theorem locator_ownership_tag (region : String)
    (reservations : List (List Ec2Instance))
    (keysResult : Except String (List KeyItem))
    (azOracle : String → Except String String)
    (priceLookup : Except String (String → String → String → ℚ))
    (results : List LaunchEc2SpotResult)
    (h : lookupEc2SpotOneRegion region (.ok reservations) keysResult azOracle
        priceLookup = .ok results) :
    ∀ lr ∈ results, ∃ inst ∈ reservations.flatten,
      inst.instanceId = lr.instanceId ∧ inst.stateName = "running" ∧
      ∃ v, (UserTagKey, v) ∈ inst.tags := by
  rw [lookupEc2SpotOneRegion.eq_def] at h
  simp only [] at h
  cases hkeys : keysResult with
  | error e => rw [hkeys] at h; simp only [] at h; exact absurd h (by simp)
  | ok keys =>
    rw [hkeys] at h
    simp only [] at h
    cases hproc : processInstances keys azOracle reservations.flatten "" "" with
    | err e => rw [hproc] at h; exact absurd h (by simp)
    | panicked => rw [hproc] at h; exact absurd h (by simp)
    | ok p =>
      obtain ⟨results0, iTypes0⟩ := p
      rw [hproc] at h
      simp only [] at h
      have hbase := processInstances_tagged keys azOracle reservations.flatten
        "" "" results0 iTypes0 hproc
      by_cases hempty : iTypes0.isEmpty
      · rw [if_pos hempty] at h
        simp only [GoOutcome.ok.injEq] at h
        subst h
        exact hbase
      · rw [if_neg hempty] at h
        cases hpl : priceLookup with
        | error e => rw [hpl] at h; exact absurd h (by simp)
        | ok priceFor =>
          rw [hpl] at h
          simp only [GoOutcome.ok.injEq] at h
          subst h
          intro lr hlr
          obtain ⟨lr0, hlr0, rfl⟩ := List.mem_map.mp hlr
          obtain ⟨i, hi, h1, h2, h3⟩ := hbase lr0 hlr0
          exact ⟨i, hi, h1, h2, h3⟩

/-- A running instance carrying the ownership tag. -/
def taggedInst : Ec2Instance :=
  ⟨"running", [("spotsh.user", "ec2-user"), ("spotsh.os", "amzn2023")],
    some "spotsh", "i-1", some "1.2.3.4", "ami-1", "sub-1", "d1", "c5.large",
    ["sg-1"]⟩

/-- A running instance without the ownership tag. -/
def untaggedInst : Ec2Instance :=
  ⟨"running", [("other", "x")], some "spotsh", "i-2", some "5.6.7.8", "ami-1",
    "sub-1", "d2", "c5.large", ["sg-1"]⟩

/-- A stopped instance carrying the ownership tag. -/
def stoppedInst : Ec2Instance :=
  ⟨"stopped", [("spotsh.user", "ec2-user")], none, "i-3", none, "ami-1",
    "sub-1", "d3", "c5.large", ["sg-1"]⟩

/-- Witness for C5: on a describe result mixing a tagged running instance,
an untagged running instance, and a stopped tagged instance, the lookup
returns exactly the record of `i-1`, which stems from a running instance
bearing the ownership tag. -/
theorem locator_ownership_tag_witness :
    ∃ inst ∈ ([[taggedInst, untaggedInst, stoppedInst]] :
        List (List Ec2Instance)).flatten,
      inst.instanceId =
        (⟨"1.2.3.4", "i-1", "ec2-user", "/k.pem", "c5.large", "ami-1", 1,
          "us-east-2a", "d1", 3, "sg-1"⟩ : LaunchEc2SpotResult).instanceId ∧
      inst.stateName = "running" ∧ ∃ v, (UserTagKey, v) ∈ inst.tags :=
  locator_ownership_tag "us-east-2" [[taggedInst, untaggedInst, stoppedInst]]
    (.ok [⟨"spotsh", "/k.pem"⟩]) (fun _ => .ok "us-east-2a")
    (.ok fun _ _ _ => 1)
    [⟨"1.2.3.4", "i-1", "ec2-user", "/k.pem", "c5.large", "ami-1", 1,
      "us-east-2a", "d1", 3, "sg-1"⟩]
    (by rfl)
    ⟨"1.2.3.4", "i-1", "ec2-user", "/k.pem", "c5.large", "ami-1", 1,
      "us-east-2a", "d1", 3, "sg-1"⟩
    (List.mem_singleton_self _)

/-! ## `aws/spotinst.go`: the launcher (`runInstance`) -/

/-- One entry of `CreateFleet`'s `Instances` output. -/
structure FleetInstance where
  instanceIds : List String
  instanceType : String
  deriving DecidableEq, Repr

/-- Outcome of the launch phase of `runInstance`: the `CreateFleet` error
wrapped as an ordinary error, one of the two cardinality panics, or the
extracted instance id and type. -/
inductive LaunchPhase
  | errored (e : String)
  | panickedInstanceCount
  | panickedInstanceIdCount
  | launched (instanceId : String) (instanceType : String)
  deriving DecidableEq, Repr

/-- The launch phase of `runInstance` from `aws/spotinst.go`: wrap a
`CreateFleet` error; panic unless exactly one instance with exactly one
instance id was returned; otherwise record the id and type. -/
def runInstanceLaunch (fleetResult : Except String (List FleetInstance)) :
    LaunchPhase :=
  match fleetResult with
  | .error e => .errored ("unable to create EC2 fleet: " ++ e)
  | .ok insts =>
      match insts with
      | [inst] =>
          if inst.instanceIds.length ≠ 1 then .panickedInstanceIdCount
          else .launched (inst.instanceIds.headD "") inst.instanceType
      | _ => .panickedInstanceCount

/-- C9: when the cloud API answers the single-instance launch call
successfully but returns a number of instances different from one, the
launcher panics (a fatal, non-error outcome, never an ordinary error);
and when the API honors its contract (exactly one instance), this fatal
branch is unreachable. -/
theorem launch_cardinality (insts : List FleetInstance) :
    (insts.length ≠ 1 → runInstanceLaunch (.ok insts) = .panickedInstanceCount) ∧
    (∀ e, runInstanceLaunch (.ok insts) ≠ .errored e) ∧
    (insts.length = 1 → runInstanceLaunch (.ok insts) ≠ .panickedInstanceCount) := by
  rcases insts with _ | ⟨x, _ | ⟨y, rest⟩⟩
  · refine ⟨fun _ => rfl, fun e => by simp [runInstanceLaunch], fun h => absurd h (by simp)⟩
  · refine ⟨fun h => absurd rfl h, fun e => ?_, fun _ => ?_⟩
    · by_cases hid : x.instanceIds.length ≠ 1 <;>
        simp [runInstanceLaunch, hid]
    · by_cases hid : x.instanceIds.length ≠ 1 <;>
        simp [runInstanceLaunch, hid]
  · exact ⟨fun _ => rfl, fun e => by simp [runInstanceLaunch],
      fun h => absurd h (by simp)⟩

/-- Witness for C9 at an empty instance list (panic taken) and a
well-formed single-instance result (panic unreachable). -/
theorem launch_cardinality_witness :
    runInstanceLaunch (.ok []) = .panickedInstanceCount ∧
      runInstanceLaunch (.ok [⟨["i-1"], "c5.large"⟩]) ≠ .panickedInstanceCount ∧
      ∀ e, runInstanceLaunch (.ok []) ≠ .errored e :=
  ⟨(launch_cardinality []).1 (by decide),
   (launch_cardinality [⟨["i-1"], "c5.large"⟩]).2.2 (by decide),
   (launch_cardinality []).2.1⟩

/-- One iteration's input to the address-polling loop of `runInstance`:
either `DescribeInstances` failed, or it returned the reservations, each
carrying its instances' optional `PublicIpAddress`. -/
inductive DescribeResult
  | failed
  | ok (reservations : List (List (Option String)))
  deriving DecidableEq, Repr

/-- Outcome of the polling loop given a finite prefix of describe
results: `done ip` means the loop broke and `runInstance` returns a nil
error with that public IP; `panicked` is a reservation/instance
cardinality panic; `polling` means every supplied result was consumed and
the loop is still running (it sleeps one second and repeats). -/
inductive PollOutcome
  | done (publicIp : String)
  | panicked
  | polling
  deriving DecidableEq, Repr

/-- The address-polling loop of `runInstance` (`for { time.Sleep(1s); ... }`),
fed a finite prefix of describe results: a describe failure breaks the
loop with the (still empty) public IP and a nil error; a well-formed
response with an address breaks with that address; a well-formed response
without an address repeats; anything else panics. -/
def pollPublicIp : List DescribeResult → PollOutcome
  | [] => .polling
  | d :: rest =>
      match d with
      | .failed => .done ""
      | .ok resvs =>
          match resvs with
          | [insts] =>
              match insts with
              | [ipOpt] =>
                  match ipOpt with
                  | some ip => .done ip
                  | none => pollPublicIp rest
              | _ => .panicked
          | _ => .panicked

/-- C7: during address polling, after any number of well-formed
no-address responses, a `DescribeInstances` failure breaks the loop and
`runInstance` returns success (nil error) with an empty public IP rather
than surfacing the error; a well-formed response carrying an address
breaks with that address; and as long as only well-formed no-address
responses arrive the loop keeps polling indefinitely. -/
theorem poll_describe_failure (pre rest : List DescribeResult)
    (hpre : ∀ d ∈ pre, d = .ok [[none]]) :
    pollPublicIp (pre ++ .failed :: rest) = .done "" ∧
      (∀ ip, pollPublicIp (pre ++ .ok [[some ip]] :: rest) = .done ip) ∧
      pollPublicIp pre = .polling := by
  induction pre with
  | nil => exact ⟨rfl, fun ip => rfl, rfl⟩
  | cons d pre ih =>
    have hd := hpre d (List.mem_cons_self _ _)
    subst hd
    obtain ⟨h1, h2, h3⟩ := ih (fun d hd => hpre d (List.mem_cons_of_mem _ hd))
    exact ⟨h1, h2, h3⟩

/-- Witness for C7 after two well-formed no-address polls. -/
theorem poll_describe_failure_witness :
    pollPublicIp [.ok [[none]], .ok [[none]], .failed] = .done "" ∧
      pollPublicIp [.ok [[none]], .ok [[none]], .ok [[some "1.2.3.4"]]] =
        .done "1.2.3.4" ∧
      pollPublicIp [.ok [[none]], .ok [[none]]] = .polling := by
  have h := poll_describe_failure [.ok [[none]], .ok [[none]]] [] (by decide)
  exact ⟨h.1, h.2.1 "1.2.3.4", h.2.2⟩

end Spotsh
